import Mathlib

/-
Verification of the pyedf binary decoding engine (EDF+ and NetStation RAW
formats).  The definitions below are a shallow embedding of the operative
source files `pyedf/edf.py` and `pyedf/raw.py`: byte streams are `List Nat`
(each element a byte value 0..255), Python exceptions become `Except PyError`,
and the `while` read loops become fuel-based recursion (the fuel is always
instantiated large enough to cover every iteration the Python loop performs).
-/

set_option maxRecDepth 10000

deriving instance DecidableEq for Except

namespace PyEdf

/-- Python errors that the embedded code can raise.  `badEdf` embeds
`BadEdfException` (raised without a message), `badRaw` embeds
`BadRawException(msg)`; the remaining constructors embed builtin Python
exceptions raised implicitly by the operations the source uses. -/
inductive PyError where
  | badEdf : PyError
  | badRaw : String → PyError
  | structError : PyError
  | valueError : PyError
  | unicodeDecodeError : PyError
  | typeError : PyError
  | zeroDivisionError : PyError
  | osError : PyError
  deriving DecidableEq, Repr

/-! Section: Byte-level utilities shared by both decoders -/

/-- Whitespace bytes removed by Python `str.strip()`. -/
def isPyWs (b : Nat) : Bool :=
  b == 32 || b == 9 || b == 10 || b == 13 || b == 11 || b == 12

/-- Python `str.strip()` on an ASCII string represented as its byte list. -/
def pyStrip (l : List Nat) : List Nat :=
  ((l.dropWhile isPyWs).reverse.dropWhile isPyWs).reverse

/-- Embeds `bytes.decode("ascii")`: succeeds iff every byte is < 128. -/
def asciiDecode (l : List Nat) : Except PyError (List Nat) :=
  if l.all (fun b => b < 128) then .ok l else .error .unicodeDecodeError

/-- The `bdecode` helper of the source: ASCII-decode then strip. -/
def bdecodeOne (l : List Nat) : Except PyError (List Nat) :=
  (asciiDecode l).map pyStrip

/-- Split a byte list into fields of the given widths (struct.unpack on a
format of consecutive `{w}s` fields). -/
def splitWidths : List Nat → List Nat → List (List Nat)
  | [], _ => []
  | w :: ws, l => l.take w :: splitWidths ws (l.drop w)

/-- Split a list into `n` consecutive chunks of size `w` (the callers always
supply a list of length exactly `n * w`, mirroring `struct.unpack` on a
format of `n` equal-width fields). -/
def chunksN (w : Nat) : Nat → List Nat → List (List Nat)
  | 0, _ => []
  | n + 1, l => l.take w :: chunksN w n (l.drop w)

/-- Signed 16-bit little-endian decode of two bytes (struct format `<h`). -/
def i16LE (b0 b1 : Nat) : Int :=
  let u := b0 % 256 + 256 * (b1 % 256)
  if u < 32768 then (u : Int) else (u : Int) - 65536

/-- Signed 16-bit big-endian decode of two bytes (struct format `>h`). -/
def i16BE (b0 b1 : Nat) : Int :=
  i16LE b1 b0

/-- Signed 32-bit big-endian decode of four bytes (struct format `>i`). -/
def i32BE (b0 b1 b2 b3 : Nat) : Int :=
  let u := ((b0 % 256) * 16777216 + (b1 % 256) * 65536 + (b2 % 256) * 256 + b3 % 256)
  if u < 2147483648 then (u : Int) else (u : Int) - 4294967296

/-- Unsigned big-endian value of a byte list (used to carry IEEE bit
patterns around without interpreting them). -/
def beBits : List Nat → Nat
  | [] => 0
  | b :: rest => (b % 256) * 256 ^ rest.length + beBits rest

/-- Decode a list of `<h` values (EDF+ samples are `<{n}h`). -/
def i16LEList : List Nat → List Int
  | [] => []
  | [_] => []
  | b0 :: b1 :: rest => i16LE b0 b1 :: i16LEList rest

/-! Section: Python int() parsing on a stripped ASCII string -/

def isDigit (b : Nat) : Bool := 48 ≤ b && b ≤ 57

/-- Digits with Python's underscore separators (an underscore must sit
between two digits).  `acc` is the value accumulated so far.  Returns the
value and the number of digits consumed. -/
def pyDigitsGo (acc count : Nat) : List Nat → Option (Nat × Nat)
  | [] => some (acc, count)
  | c :: rest =>
    if isDigit c then pyDigitsGo (acc * 10 + (c - 48)) (count + 1) rest
    else if c == 95 then
      match rest with
      | d :: rest2 =>
        if isDigit d then pyDigitsGo (acc * 10 + (d - 48)) (count + 1) rest2
        else none
      | [] => none
    else none

/-- A nonempty run of decimal digits (underscores allowed inside), as
accepted by Python's `int()`/`float()` digit groups. -/
def pyDigits (l : List Nat) : Option (Nat × Nat) :=
  match l with
  | c :: rest => if isDigit c then pyDigitsGo (c - 48) 1 rest else none
  | [] => none

/-- Python `int(s)` on an already-stripped ASCII string: optional sign then
digits.  `none` embeds `ValueError`. -/
def pyInt? (l : List Nat) : Option Int :=
  match l with
  | 43 :: rest => (pyDigits rest).map (fun p => (p.1 : Int))
  | 45 :: rest => (pyDigits rest).map (fun p => -(p.1 : Int))
  | _ => (pyDigits l).map (fun p => (p.1 : Int))

/-! Section: Python `float()` on a stripped ASCII string

Only the parse success/failure and the exact rational value of the literal
are modelled (the EDF+ claims never consume the stored physical min/max, so
the IEEE rounding Python applies on top of the literal value is irrelevant
here). -/

inductive PyFloatV where
  | fin : ℚ → PyFloatV
  | inf : Bool → PyFloatV
  | nan : PyFloatV
  deriving DecidableEq, Repr

def lowerByte (b : Nat) : Nat := if 65 ≤ b && b ≤ 90 then b + 32 else b

/-- Mantissa of a float literal: `d+ | d+.d* | .d+ | d+.` with underscore
groups, returning its exact value. -/
def pyFloatMantissa (l : List Nat) : Option ℚ :=
  match l.splitOn 46 with
  | [ip] => (pyDigits ip).map (fun p => (p.1 : ℚ))
  | [ip, fp] =>
    match ip, fp with
    | [], [] => none
    | [], _ => (pyDigits fp).map (fun p => (p.1 : ℚ) / (10 : ℚ) ^ p.2)
    | _, [] => (pyDigits ip).map (fun p => (p.1 : ℚ))
    | _, _ =>
      match pyDigits ip, pyDigits fp with
      | some p, some q => some ((p.1 : ℚ) + (q.1 : ℚ) / (10 : ℚ) ^ q.2)
      | _, _ => none
  | _ => none

/-- Unsigned part of a float literal: `inf`, `infinity`, `nan` or a mantissa
with an optional exponent. -/
def pyFloatUnsigned (l : List Nat) : Option PyFloatV :=
  let low := l.map lowerByte
  if low == [105, 110, 102] || low == [105, 110, 102, 105, 110, 105, 116, 121] then
    some (.inf false)
  else if low == [110, 97, 110] then
    some .nan
  else
    match (low.splitOn 101) with
    | [m] => (pyFloatMantissa m).map .fin
    | [m, e] =>
      match pyFloatMantissa m, pyInt? e with
      | some q, some ex => some (.fin (q * (10 : ℚ) ^ ex))
      | _, _ => none
    | _ => none

/-- Python `float(s)` on an already-stripped ASCII string.  `none` embeds
`ValueError`. -/
def pyFloat? (l : List Nat) : Option PyFloatV :=
  match l with
  | 43 :: rest => pyFloatUnsigned rest
  | 45 :: rest =>
    (pyFloatUnsigned rest).map fun v =>
      match v with
      | .fin q => .fin (-q)
      | .inf _ => .inf true
      | .nan => .nan
  | _ => pyFloatUnsigned l

/-! Section: Python list slicing -/

/-- Normalise one slice bound against a list of length `len`
(negative indices count from the end; out-of-range bounds clamp). -/
def pySliceIdx (n : Int) (len : Nat) : Nat :=
  if n < 0 then ((len : Int) + n).toNat else min n.toNat len

/-- Python `xs[a:b]`. -/
def pySlice (a b : Int) (xs : List α) : List α :=
  (xs.take (pySliceIdx b xs.length)).drop (pySliceIdx a xs.length)

/-- Python `xs[a:]`. -/
def pySliceFrom (a : Int) (xs : List α) : List α :=
  xs.drop (pySliceIdx a xs.length)

/-- Python `xs[:b]`. -/
def pySliceTo (b : Int) (xs : List α) : List α :=
  xs.take (pySliceIdx b xs.length)

/-! Section: EDF+ decoder — embedding of `pyedf/edf.py`

The operative EDF+ implementation is `pyedf/edf.py` (the repository's two
legacy copies diverge: `edffile.py` is syntactically invalid Python and the
root `__init__.py` carries an off-by-one record loop; both are embedded or
discussed only where a claim touches them). -/

/-- The `_EdfHeader` namedtuple: the ten fixed-width header fields, stored
as ASCII-decoded and stripped strings exactly as `bdecode` leaves them. -/
structure EdfHeaderT where
  ver : List Nat
  pid : List Nat
  rid : List Nat
  sdate : List Nat
  stime : List Nat
  nbyte : List Nat
  reserved : List Nat
  ndata : List Nat
  duration : List Nat
  nsignal : List Nat
  deriving DecidableEq, Repr

/-- The `_SignalHeader` namedtuple, one per channel, including the computed
record-relative byte `offset`. -/
structure SignalHeader where
  label : List Nat
  ttype : List Nat
  pdim : List Nat
  pmin : PyFloatV
  pmax : PyFloatV
  dmin : Int
  dmax : Int
  preflt : List Nat
  nsample : Int
  reserved : List Nat
  offset : Nat
  deriving DecidableEq, Repr

instance : Inhabited SignalHeader :=
  ⟨{ label := [], ttype := [], pdim := [], pmin := .fin 0, pmax := .fin 0,
     dmin := 0, dmax := 0, preflt := [], nsample := 0, reserved := [],
     offset := 0 }⟩

/-- The `EdfData` value: a channel's sample list for one record, tagged with its
signal header (the source subclasses `list` and stores the signal in an
attribute). -/
structure EdfData where
  signal : SignalHeader
  data : List Int
  deriving DecidableEq, Repr

/-- The state `EdfFile.__init__` leaves behind: the decoded header, the
signal table and `_data_record_size`.  (`self.duration` is a derived
timestamp no claim consumes; its two numeric conversions are still
performed below because their failure aborts the open.) -/
structure EdfFile where
  header : EdfHeaderT
  signals : List SignalHeader
  dataRecordSize : Nat
  deriving DecidableEq, Repr

/-- Left-to-right effectful map over `Except`, the order in which Python's
`list(map(formatter, ...))` applies the formatter and propagates the first
exception. -/
def mapME (g : α → Except PyError β) : List α → Except PyError (List β)
  | [] => .ok []
  | a :: as =>
    match g a with
    | .error e => .error e
    | .ok b =>
      match mapME g as with
      | .error e => .error e
      | .ok bs => .ok (b :: bs)

/-- Python `int(...)` with its `ValueError` made explicit. -/
def toIntE (l : List Nat) : Except PyError Int :=
  match pyInt? l with
  | some z => .ok z
  | none => .error .valueError

/-- Python `float(...)` with its `ValueError` made explicit. -/
def toFloatE (l : List Nat) : Except PyError PyFloatV :=
  match pyFloat? l with
  | some v => .ok v
  | none => .error .valueError

/-- The `unpack_array(count, size, formatter)` helper up to the formatter: read
`count * size` bytes (short read raises `BadEdfException`), split into
`count` fields and `bdecode` each one. -/
def unpackArrayStr (count size : Nat) (rem : List Nat) :
    Except PyError (List (List Nat) × List Nat) :=
  let need := count * size
  let b := rem.take need
  if b.length ≠ need then .error .badEdf
  else
    match mapME bdecodeOne (chunksN size count b) with
    | .ok fields => .ok (fields, rem.drop need)
    | .error e => .error e

/-- The header-decoding prefix of `EdfFile.__init__`: read the fixed
256-byte block (struct format `<8s80s80s8s8s8s44s8s8s4s`), `bdecode` every
field and build the header record.  A short read raises `BadEdfException`
before any field is decoded. -/
def parseEdfHeader (bs : List Nat) : Except PyError EdfHeaderT :=
  let hb := bs.take 256
  if hb.length ≠ 256 then .error .badEdf
  else
    match mapME bdecodeOne (splitWidths [8, 80, 80, 8, 8, 8, 44, 8, 8, 4] hb) with
    | .error e => .error e
    | .ok fs =>
      .ok { ver := fs.getD 0 [], pid := fs.getD 1 [], rid := fs.getD 2 [],
            sdate := fs.getD 3 [], stime := fs.getD 4 [], nbyte := fs.getD 5 [],
            reserved := fs.getD 6 [], ndata := fs.getD 7 [],
            duration := fs.getD 8 [], nsignal := fs.getD 9 [] }

/-- The offset loop of `EdfFile.__init__`: starting from 0, record each
channel's offset and add `calcsize('<{ns}h') = 2 * ns`; a negative sample
count makes `calcsize` raise `struct.error`.  Returns the offsets and the
final cumulative size (`_data_record_size`). -/
def offsetsAcc (acc : Nat) : List Int → Except PyError (List Nat × Nat)
  | [] => .ok ([], acc)
  | ns :: rest =>
    if ns < 0 then .error .structError
    else
      match offsetsAcc (acc + 2 * ns.toNat) rest with
      | .ok (os, t) => .ok (acc :: os, t)
      | .error e => .error e

/-- The signal-record construction loop: one `_SignalHeader` per channel,
taking index `i` of every per-field array. -/
def mkSignals (n : Nat) (labels ttypes pdims : List (List Nat))
    (pmins pmaxs : List PyFloatV) (dmins dmaxs : List Int)
    (preflts : List (List Nat)) (nsamples : List Int)
    (reserveds : List (List Nat)) (offs : List Nat) : List SignalHeader :=
  (List.range n).map fun i =>
    { label := labels.getD i [], ttype := ttypes.getD i [],
      pdim := pdims.getD i [], pmin := pmins.getD i (.fin 0),
      pmax := pmaxs.getD i (.fin 0), dmin := dmins.getD i 0,
      dmax := dmaxs.getD i 0, preflt := preflts.getD i [],
      nsample := nsamples.getD i 0, reserved := reserveds.getD i [],
      offset := offs.getD i 0 }

/-- The whole `EdfFile.__init__` over a byte stream: header block, the ten
column-major signal-field arrays in `shdr_order` (each field's formatter
applied right after its array is read, as the dict comprehension does),
the declared-length consistency check, the offset computation and the two
numeric conversions of the duration calculation. -/
def parseEdf (bs : List Nat) : Except PyError EdfFile :=
  match parseEdfHeader bs with
  | .error e => .error e
  | .ok hdr =>
    match pyInt? hdr.nsignal with
    | none => .error .valueError
    | some nsigI =>
      let n := nsigI.toNat
      let r0 := bs.drop 256
      match unpackArrayStr n 16 r0 with
      | .error e => .error e
      | .ok (labels, r1) =>
        match unpackArrayStr n 80 r1 with
        | .error e => .error e
        | .ok (ttypes, r2) =>
          match unpackArrayStr n 8 r2 with
          | .error e => .error e
          | .ok (pdims, r3) =>
            match unpackArrayStr n 8 r3 with
            | .error e => .error e
            | .ok (pminS, r4) =>
              match mapME toFloatE pminS with
              | .error e => .error e
              | .ok pmins =>
                match unpackArrayStr n 8 r4 with
                | .error e => .error e
                | .ok (pmaxS, r5) =>
                  match mapME toFloatE pmaxS with
                  | .error e => .error e
                  | .ok pmaxs =>
                    match unpackArrayStr n 8 r5 with
                    | .error e => .error e
                    | .ok (dminS, r6) =>
                      match mapME toIntE dminS with
                      | .error e => .error e
                      | .ok dmins =>
                        match unpackArrayStr n 8 r6 with
                        | .error e => .error e
                        | .ok (dmaxS, r7) =>
                          match mapME toIntE dmaxS with
                          | .error e => .error e
                          | .ok dmaxs =>
                            match unpackArrayStr n 80 r7 with
                            | .error e => .error e
                            | .ok (preflts, r8) =>
                              match unpackArrayStr n 8 r8 with
                              | .error e => .error e
                              | .ok (nsampleS, r9) =>
                                match mapME toIntE nsampleS with
                                | .error e => .error e
                                | .ok nsamples =>
                                  match unpackArrayStr n 32 r9 with
                                  | .error e => .error e
                                  | .ok (reserveds, _) =>
                                    parseEdfTail hdr n labels ttypes pdims
                                      pmins pmaxs dmins dmaxs preflts
                                      nsamples reserveds
where
  /-- Everything after the signal arrays have been read: the cursor check
  against the declared `nbyte`, the offset loop, the signal construction
  and the duration conversions.  The cursor after the arrays is
  `256 + 256 * n` (the ten field widths sum to 256 bytes per channel). -/
  parseEdfTail (hdr : EdfHeaderT) (n : Nat)
      (labels ttypes pdims : List (List Nat)) (pmins pmaxs : List PyFloatV)
      (dmins dmaxs : List Int) (preflts : List (List Nat))
      (nsamples : List Int) (reserveds : List (List Nat)) :
      Except PyError EdfFile :=
    match pyInt? hdr.nbyte with
    | none => .error .valueError
    | some nbyteI =>
      if ((256 + 256 * n : Nat) : Int) ≠ nbyteI then .error .badEdf
      else
        match offsetsAcc 0 nsamples with
        | .error e => .error e
        | .ok (offs, drs) =>
          match pyFloat? hdr.duration with
          | none => .error .valueError
          | some _ =>
            match pyInt? hdr.ndata with
            | none => .error .valueError
            | some _ =>
              .ok { header := hdr,
                    signals := mkSignals n labels ttypes pdims pmins pmaxs
                                 dmins dmaxs preflts nsamples reserveds offs,
                    dataRecordSize := drs }

/-- Sum of the per-signal sample counts (`sum([s.nsample for s in ...])`). -/
def sumNsample (sigs : List SignalHeader) : Int :=
  (sigs.map (fun s => s.nsample)).sum

/-- The record demultiplexing loop of `EdfFile.read`: slice the unpacked
integer tuple at the running sample index (Python slice semantics). -/
def demuxGo (ints : List Int) : Int → List SignalHeader → List EdfData
  | _, [] => []
  | i, s :: ss =>
    ⟨s, pySlice i (i + s.nsample) ints⟩ :: demuxGo ints (i + s.nsample) ss

/-- The `while True` loop of `EdfFile.read`, with explicit fuel (always
called with fuel exceeding the number of iterations): read one
`_data_record_size` chunk; an empty or short read ends the loop (the short
read prints a warning and discards the partial record); otherwise unpack
`<{nint}h` (struct.error if the byte count disagrees or the count is
negative) and demultiplex. -/
def readLoop (f : EdfFile) : Nat → List Nat → Except PyError (List (List EdfData))
  | 0, _ => .ok []
  | fuel + 1, rem =>
    let byt := rem.take f.dataRecordSize
    if byt.length = 0 then .ok []
    else if byt.length < f.dataRecordSize then .ok []
    else
      let nint := sumNsample f.signals
      if nint < 0 then .error .structError
      else if byt.length ≠ 2 * nint.toNat then .error .structError
      else
        match readLoop f fuel (rem.drop f.dataRecordSize) with
        | .ok recs => .ok (demuxGo (i16LEList byt) 0 f.signals :: recs)
        | .error e => .error e

/-- Embeds `EdfFile.read`: re-parse `nbyte` and `ndata` from the stored header
strings (`ndata` is computed but unused, exactly as in the source), seek to
the end of the headers and run the record loop over the rest of the file. -/
def edfRead (f : EdfFile) (bs : List Nat) : Except PyError (List (List EdfData)) :=
  match pyInt? f.header.nbyte with
  | none => .error .valueError
  | some spos =>
    match pyInt? f.header.ndata with
    | none => .error .valueError
    | some _ =>
      if spos < 0 then .error .osError
      else
        let rem := bs.drop spos.toNat
        readLoop f (rem.length + 1) rem

/-- Concatenation of channel `i`'s sample sequences across all records. -/
def channelJoin (recs : List (List EdfData)) (i : Nat) : List Int :=
  (recs.map (fun r => (r.map EdfData.data).getD i [])).flatten

/-- The module-level `_scale` function.  Python arithmetic on the exact
values, with the implicit `ZeroDivisionError` of `/` made explicit: the
source has no guard of its own. -/
def _scale (v : ℚ) (s : ℚ × ℚ) (d : ℚ × ℚ) : Except PyError ℚ :=
  if s.2 - s.1 = 0 then .error .zeroDivisionError
  else .ok ((v - s.1) / (s.2 - s.1) * (d.2 - d.1) + d.1)

/-! Section: the legacy root-module copy of `EdfFile.read` (`__init__.py`)

The repository carries two further EDF+ decoder copies.  `edffile.py` is
syntactically invalid Python (a bare `class` fragment) and cannot even be
imported; the root `__init__.py` is importable but its `read` differs from
the packaged `pyedf/edf.py`: it increments a record counter before
processing and breaks as soon as `count == ndata`, so the `ndata`-th record
is read but discarded.  The embedding below documents that divergence. -/

/-- The `while` loop of the legacy root-module `read`: `count` is the
incremented record counter; the declared-count break precedes both the
short-read check and the record processing. -/
def readLoopLegacy (f : EdfFile) (ndata : Int) :
    Nat → Int → List Nat → Except PyError (List (List (List Int)))
  | 0, _, _ => .ok []
  | fuel + 1, count, rem =>
    let byt := rem.take f.dataRecordSize
    let count' := count + 1
    if ndata > 0 ∧ count' = ndata then .ok []
    else if byt.length < f.dataRecordSize then .ok []
    else
      let nint := sumNsample f.signals
      if nint < 0 then .error .structError
      else if byt.length ≠ 2 * nint.toNat then .error .structError
      else
        match readLoopLegacy f ndata fuel count' (rem.drop f.dataRecordSize) with
        | .ok recs =>
          .ok ((demuxGo (i16LEList byt) 0 f.signals).map EdfData.data :: recs)
        | .error e => .error e

/-- The legacy root-module `EdfFile.read` (`__init__.py`): same seek and
unpacking, but with the off-by-one declared-count break and plain tuples
instead of `EdfData` values. -/
def edfReadLegacy (f : EdfFile) (bs : List Nat) :
    Except PyError (List (List (List Int))) :=
  match pyInt? f.header.nbyte with
  | none => .error .valueError
  | some spos =>
    match pyInt? f.header.ndata with
    | none => .error .valueError
    | some ndata =>
      if spos < 0 then .error .osError
      else
        let rem := bs.drop spos.toNat
        readLoopLegacy f ndata (rem.length + 1) 0 rem

/-! Section: RAW (NetStation) decoder — embedding of `pyedf/raw.py` -/

/-- The fields of `_RawHeader`, decoded from the big-endian struct
`>i6hi5hih` (struct sizes: version/ms/nsample are `i`, the rest `h`). -/
structure RawHeader where
  version : Int
  year : Int
  month : Int
  day : Int
  hour : Int
  min : Int
  s : Int
  ms : Int
  rate : Int
  nchan : Int
  gain : Int
  nconv : Int
  amprange : Int
  nsample : Int
  nevent : Int
  deriving DecidableEq, Repr

/-- Sample representation selected from the version tag
(`2` → int16, `4` → float32, `6` → float64). -/
inductive RawRep where
  | int16 : RawRep
  | sfp : RawRep
  | dfp : RawRep
  deriving DecidableEq, Repr

/-- Byte width of one value under each representation
(the `'h'`/`'f'`/`'d'` struct codes). -/
def RawRep.width : RawRep → Nat
  | .int16 => 2
  | .sfp => 4
  | .dfp => 8

/-- One decoded record value.  Integer samples are decoded; float samples
keep their IEEE bit pattern (no claim consumes their numeric value, and
Python's `== 1` test on a float holds exactly when its bit pattern is the
canonical encoding of 1.0). -/
inductive PyVal where
  | int : Int → PyVal
  | f32bits : Nat → PyVal
  | f64bits : Nat → PyVal
  deriving DecidableEq, Repr

/-- Python `x == 1` for a decoded record value. -/
def pyEqOne : PyVal → Bool
  | .int z => z == 1
  | .f32bits n => n == 1065353216
  | .f64bits n => n == 4607182418800017408

/-- Decode one record value from its byte chunk. -/
def decodeVal (rep : RawRep) (chunk : List Nat) : PyVal :=
  match rep with
  | .int16 =>
    match chunk with
    | b0 :: b1 :: _ => .int (i16BE b0 b1)
    | _ => .int 0
  | .sfp => .f32bits (beBits chunk)
  | .dfp => .f64bits (beBits chunk)

/-- The state `_read_header` leaves on a `RawFile` object: the decoded
header, the chosen representation, the event-code table (4-byte strings,
untrimmed) and the per-record value count parsed out of `_rec_fmt`. -/
structure RawState where
  header : RawHeader
  rep : RawRep
  codes : List (List Nat)
  recCount : Nat
  deriving DecidableEq, Repr

/-- Embeds `calcsize(self._rec_fmt)`: `_rec_size` is derived from `_rec_fmt`
exactly as in the source. -/
def RawState.recSize (st : RawState) : Nat :=
  st.recCount * st.rep.width

/-- Embeds `RawFile._read_header`: decode the fixed 36-byte big-endian header, pick
the representation from the version tag, read the event-code table, and
compute the record format.  Returns the populated state together with the
unread remainder of the stream (the file cursor).  Errors embed the
`BadRawException`s the source raises; `structError` embeds the
`struct.error` that `calcsize` raises on a negative repeat count in
`_rec_fmt`. -/
def rawReadHeader (bs : List Nat) : Except PyError (RawState × List Nat) :=
  let b := bs.take 36
  if b.length ≠ 36 then .error (.badRaw "Incomplete header.") else
  let hdr : RawHeader := {
    version := i32BE (b.getD 0 0) (b.getD 1 0) (b.getD 2 0) (b.getD 3 0)
    year := i16BE (b.getD 4 0) (b.getD 5 0)
    month := i16BE (b.getD 6 0) (b.getD 7 0)
    day := i16BE (b.getD 8 0) (b.getD 9 0)
    hour := i16BE (b.getD 10 0) (b.getD 11 0)
    min := i16BE (b.getD 12 0) (b.getD 13 0)
    s := i16BE (b.getD 14 0) (b.getD 15 0)
    ms := i32BE (b.getD 16 0) (b.getD 17 0) (b.getD 18 0) (b.getD 19 0)
    rate := i16BE (b.getD 20 0) (b.getD 21 0)
    nchan := i16BE (b.getD 22 0) (b.getD 23 0)
    gain := i16BE (b.getD 24 0) (b.getD 25 0)
    nconv := i16BE (b.getD 26 0) (b.getD 27 0)
    amprange := i16BE (b.getD 28 0) (b.getD 29 0)
    nsample := i32BE (b.getD 30 0) (b.getD 31 0) (b.getD 32 0) (b.getD 33 0)
    nevent := i16BE (b.getD 34 0) (b.getD 35 0) }
  let rest := bs.drop 36
  match hdr.version with
  | 2 => rawReadCodes hdr .int16 rest
  | 4 => rawReadCodes hdr .sfp rest
  | 6 => rawReadCodes hdr .dfp rest
  | _ => .error (.badRaw "Unknown filetype.")
where
  /-- Continuation after the version check: the event-code read and the
  record-format computation.  `'4s' * ncodes` clamps a negative `nevent`
  to zero codes, but `_rec_fmt` uses the unclamped `nchan + ncodes`. -/
  rawReadCodes (hdr : RawHeader) (rep : RawRep) (rest : List Nat) :
      Except PyError (RawState × List Nat) :=
    let numCodes := hdr.nevent.toNat
    let codeBytes := rest.take (4 * numCodes)
    if codeBytes.length ≠ 4 * numCodes then
      .error (.badRaw "Incomplete event code listing.")
    else
      let recCountI := hdr.nchan + hdr.nevent
      if recCountI < 0 then .error .structError
      else
        .ok ({ header := hdr, rep := rep, codes := chunksN 4 numCodes codeBytes,
               recCount := recCountI.toNat },
             rest.drop (4 * numCodes))

/-- Result of `RawFile.next`: either a decoded record (active event codes
plus the channel sample values) or the `False, False` end-of-data value. -/
inductive RawNext where
  | noMore : RawNext
  | record : List (List Nat) → List PyVal → RawNext
  deriving DecidableEq, Repr

/-- The decoded values of the record at the head of `rem` (the
`unpack(self._rec_fmt, b)` tuple). -/
def recVals (st : RawState) (rem : List Nat) : List PyVal :=
  (chunksN st.rep.width st.recCount (rem.take st.recSize)).map (decodeVal st.rep)

/-- The trailing event flags of that record: `data[nc:]` with Python slice
semantics (`nchan` may be negative in a decoded header). -/
def recFlags (st : RawState) (rem : List Nat) : List PyVal :=
  pySliceFrom st.header.nchan (recVals st rem)

/-- Modelled from the spec's wording for the event resolution: walk the
flags and the event-code table in parallel and keep the codes whose flag
equals 1, in table order.  Compared against the source's zip/filter below. -/
def specActive : List PyVal → List (List Nat) → List (List Nat)
  | f :: fs, c :: cs => if pyEqOne f then c :: specActive fs cs else specActive fs cs
  | _, _ => []

/-- Embeds `RawFile.next`: read one record from the remaining stream `rem`.
A zero-length or short read returns the `False, False` value (`noMore`);
so does the event-flag count mismatch branch, which prints an error and
returns `False, False` without raising.  The function never raises — the
`Except` codomain records that no path of the source's `next` raises. -/
def rawNext (st : RawState) (rem : List Nat) : Except PyError RawNext :=
  let b := rem.take st.recSize
  if b.length = 0 then .ok .noMore
  else if b.length < st.recSize then .ok .noMore
  else
    let data := recVals st rem
    let evActive := pySliceFrom st.header.nchan data
    if ((evActive.length : Int) ≠ st.header.nevent) then .ok .noMore
    else
      .ok (.record (((evActive.zip st.codes).filter (fun x => pyEqOne x.1)).map
                      (fun x => x.2))
                   (pySliceTo st.header.nchan data))

/-- Embeds `RawFile.__exit__`: closes the handle and, when an exception is being
handled, evaluates `"Error: " + exvalue` — string + exception raises
`TypeError` before the `return True` is reached.  With no exception it
returns `True`. -/
def rawExit (exc : Option PyError) : Except PyError Bool :=
  match exc with
  | none => .ok true
  | some _ => .error .typeError

/-- Outcome of a `with RawFile(...)` statement as seen by the caller. -/
inductive WithOutcome (α : Type) where
  | completed : Option α → WithOutcome α
  | raised : PyError → WithOutcome α
  deriving DecidableEq, Repr

/-- Python `with` semantics over the RawFile context manager: `__enter__`
runs `_read_header` (its exceptions propagate, `__exit__` is not called);
an exception from the body is passed to `__exit__`, which suppresses it
when it returns `True` and replaces it when it itself raises. -/
def runRawWith (bs : List Nat) (body : RawState → List Nat → Except PyError α) :
    WithOutcome α :=
  match rawReadHeader bs with
  | .error e => .raised e
  | .ok (st, rest) =>
    match body st rest with
    | .ok a =>
      match rawExit none with
      | .ok _ => .completed (some a)
      | .error e2 => .raised e2
    | .error e =>
      match rawExit (some e) with
      | .ok true => .completed none
      | .ok false => .raised e
      | .error e2 => .raised e2

/-! Section: Concrete byte-level inputs used by the witnesses and tests -/

/-- A run of `n` ASCII space bytes (the EDF+ padding). -/
def spacesB (n : Nat) : List Nat := List.replicate n 32

/-- An ASCII field value right-padded with spaces to width `w`. -/
def padF (content : List Nat) (w : Nat) : List Nat :=
  content ++ spacesB (w - content.length)

/-- A complete little 784-byte EDF+ file: `nsignal = 2`,
`sampleCount = [4, 4]`, `ndata = 1`, `nbyte = 768`, duration `1`,
physical range 0..1, digital range 0..1, followed by one data record of
the eight little-endian int16 samples 1..8. -/
def edfGoodBytes : List Nat :=
  padF [] 8 ++ padF [] 80 ++ padF [] 80 ++ padF [] 8 ++ padF [] 8 ++
  padF [55, 54, 56] 8 ++ padF [] 44 ++ padF [49] 8 ++ padF [49] 8 ++
  padF [50] 4 ++
  spacesB 32 ++ spacesB 160 ++ spacesB 16 ++
  (padF [48] 8 ++ padF [48] 8) ++ (padF [49] 8 ++ padF [49] 8) ++
  (padF [48] 8 ++ padF [48] 8) ++ (padF [49] 8 ++ padF [49] 8) ++
  spacesB 160 ++ (padF [52] 8 ++ padF [52] 8) ++ spacesB 64 ++
  [1, 0, 2, 0, 3, 0, 4, 0, 5, 0, 6, 0, 7, 0, 8, 0]

/-- A degenerate but successfully-opening 512-byte EDF+ file:
`nsignal = 1`, `sampleCount = [0]`, `ndata = 1`, `nbyte = 512` and no data
bytes — its single declared record is zero bytes long and the file contains
exactly `ndata * dataRecordSize = 0` data bytes. -/
def edfDegBytes : List Nat :=
  padF [] 8 ++ padF [] 80 ++ padF [] 80 ++ padF [] 8 ++ padF [] 8 ++
  padF [53, 49, 50] 8 ++ padF [] 44 ++ padF [49] 8 ++ padF [49] 8 ++
  padF [49] 4 ++
  spacesB 16 ++ spacesB 80 ++ spacesB 8 ++
  padF [48] 8 ++ padF [49] 8 ++ padF [48] 8 ++ padF [49] 8 ++
  spacesB 80 ++ padF [48] 8 ++ spacesB 32

/-- A RAW header-plus-codes block: version 2 (int16 samples), `nchan = 1`,
`nevent = 3`, event codes `"aaaa"`, `"bbbb"`, `"cccc"`. -/
def rawGoodBytes : List Nat :=
  [0, 0, 0, 2] ++ List.replicate 12 0 ++ [0, 0, 0, 0] ++
  [0, 0] ++ [0, 1] ++ [0, 0] ++ [0, 0] ++ [0, 0] ++ [0, 0, 0, 0] ++ [0, 3] ++
  [97, 97, 97, 97] ++ [98, 98, 98, 98] ++ [99, 99, 99, 99]

/-- One RAW data record for `rawGoodBytes`: channel value 7, then the
event flags 1, 0, 1. -/
def rawGoodRecord : List Nat := [0, 7, 0, 1, 0, 0, 0, 1]

/-- A RAW header-plus-codes block with a negative channel count:
version 2, `nchan = -1`, `nevent = 3`, same three event codes.  The record
format then holds `nchan + nevent = 2` values, while the trailing-slice
`data[nchan:]` yields a single flag — the flag-count check fires. -/
def rawNegBytes : List Nat :=
  [0, 0, 0, 2] ++ List.replicate 12 0 ++ [0, 0, 0, 0] ++
  [0, 0] ++ [255, 255] ++ [0, 0] ++ [0, 0] ++ [0, 0] ++ [0, 0, 0, 0] ++ [0, 3] ++
  [97, 97, 97, 97] ++ [98, 98, 98, 98] ++ [99, 99, 99, 99]

/-- One RAW data record for `rawNegBytes` (two int16 values). -/
def rawNegRecord : List Nat := [0, 1, 0, 2]

/-- The `EdfFile` state produced by opening `edfGoodBytes`. -/
def edfGoodFile : EdfFile :=
  { header := { ver := [], pid := [], rid := [], sdate := [], stime := [],
                nbyte := [55, 54, 56], reserved := [], ndata := [49],
                duration := [49], nsignal := [50] },
    signals :=
      [{ label := [], ttype := [], pdim := [], pmin := .fin 0, pmax := .fin 1,
         dmin := 0, dmax := 1, preflt := [], nsample := 4, reserved := [],
         offset := 0 },
       { label := [], ttype := [], pdim := [], pmin := .fin 0, pmax := .fin 1,
         dmin := 0, dmax := 1, preflt := [], nsample := 4, reserved := [],
         offset := 8 }],
    dataRecordSize := 16 }

/-- The `EdfFile` state produced by opening `edfDegBytes`. -/
def edfDegFile : EdfFile :=
  { header := { ver := [], pid := [], rid := [], sdate := [], stime := [],
                nbyte := [53, 49, 50], reserved := [], ndata := [49],
                duration := [49], nsignal := [49] },
    signals :=
      [{ label := [], ttype := [], pdim := [], pmin := .fin 0, pmax := .fin 1,
         dmin := 0, dmax := 1, preflt := [], nsample := 0, reserved := [],
         offset := 0 }],
    dataRecordSize := 0 }

/-- The `RawState` produced by `_read_header` on `rawGoodBytes`. -/
def rawGoodState : RawState :=
  { header := { version := 2, year := 0, month := 0, day := 0, hour := 0,
                min := 0, s := 0, ms := 0, rate := 0, nchan := 1, gain := 0,
                nconv := 0, amprange := 0, nsample := 0, nevent := 3 },
    rep := .int16,
    codes := [[97, 97, 97, 97], [98, 98, 98, 98], [99, 99, 99, 99]],
    recCount := 4 }

/-- The `RawState` produced by `_read_header` on `rawNegBytes`. -/
def rawNegState : RawState :=
  { header := { version := 2, year := 0, month := 0, day := 0, hour := 0,
                min := 0, s := 0, ms := 0, rate := 0, nchan := -1, gain := 0,
                nconv := 0, amprange := 0, nsample := 0, nevent := 3 },
    rep := .int16,
    codes := [[97, 97, 97, 97], [98, 98, 98, 98], [99, 99, 99, 99]],
    recCount := 2 }

/-! Section: Supporting lemmas -/

theorem chunksN_length (w n : Nat) (l : List Nat) : (chunksN w n l).length = n := by
  induction n generalizing l with
  | zero => rfl
  | succ m ih => simp [chunksN, ih]

theorem mapME_ok_length {g : α → Except PyError β} :
    ∀ {l : List α} {res : List β}, mapME g l = .ok res → res.length = l.length := by
  intro l
  induction l with
  | nil => intro res h; cases h; rfl
  | cons a as ih =>
    intro res h
    simp only [mapME] at h
    cases hg : g a with
    | error e => rw [hg] at h; cases h
    | ok b =>
      rw [hg] at h
      cases hr : mapME g as with
      | error e => rw [hr] at h; cases h
      | ok bs => rw [hr] at h; cases h; simp [ih hr]

theorem i16LEList_length : ∀ l : List Nat, (i16LEList l).length = l.length / 2 := by
  intro l
  induction l using i16LEList.induct with
  | case1 => simp [i16LEList]
  | case2 b => simp [i16LEList]
  | case3 b0 b1 rest ih =>
    simp only [i16LEList, List.length_cons, ih]
    omega

theorem pySlice_length (a b : Int) (xs : List α) (ha : 0 ≤ a) (hab : a ≤ b)
    (hb : b ≤ (xs.length : Int)) :
    (pySlice a b xs).length = (b - a).toNat := by
  simp only [pySlice, pySliceIdx, List.length_drop, List.length_take]
  rw [if_neg (by omega), if_neg (by omega)]
  omega

/-- The zip/filter/map in `RawFile.next` computes exactly the spec-side
flag selection. -/
theorem specActive_eq_zip_filter (fs : List PyVal) (cs : List (List Nat)) :
    ((fs.zip cs).filter (fun x => pyEqOne x.1)).map (fun x => x.2)
      = specActive fs cs := by
  induction fs generalizing cs with
  | nil => simp [specActive]
  | cons f ft ih =>
    cases cs with
    | nil => simp [specActive]
    | cons c ct =>
      simp only [List.zip_cons_cons, List.filter_cons, specActive]
      by_cases h : pyEqOne f
      · simp [h, ih]
      · simp [h, ih]

/-! Section: Claim theorems -/

/-- C3: a byte source shorter than the fixed header size (256 bytes for
EDF+, 36 bytes for the RAW struct `>i6hi5hih`) makes the open fail with
the format's truncation error (`BadEdfException` / `BadRawException`
("Incomplete header.")); the `Except` result carries no header at all, so
no partially-populated header is returned. -/
theorem truncated_header_rejected :
    (∀ bs : List Nat, bs.length < 256 → parseEdf bs = .error .badEdf) ∧
    (∀ bs : List Nat, bs.length < 36 →
       rawReadHeader bs = .error (.badRaw "Incomplete header.")) := by
  constructor
  · intro bs h
    have hl : (bs.take 256).length ≠ 256 := by
      simp only [List.length_take]
      omega
    simp only [parseEdf, parseEdfHeader, if_pos hl]
  · intro bs h
    have hl : (bs.take 36).length ≠ 36 := by
      simp only [List.length_take]
      omega
    simp only [rawReadHeader, if_pos hl]

/-- Witness for C3 at the empty byte source. -/
theorem truncated_header_rejected_witness :
    parseEdf [] = .error .badEdf ∧
    rawReadHeader [] = .error (.badRaw "Incomplete header.") :=
  ⟨truncated_header_rejected.1 [] (by decide),
   truncated_header_rejected.2 [] (by decide)⟩

/-- C8: `RawFile.next` at end of stream or on a short read (fewer remaining
bytes than one full record) returns the `False, False` end-of-data value
(`noMore`) and does not raise (`.ok`, never `.error`). -/
theorem raw_next_short_read_no_more (st : RawState) (rem : List Nat)
    (h : rem.length < st.recSize ∨ rem = []) :
    rawNext st rem = .ok .noMore := by
  have hlen : (rem.take st.recSize).length = min st.recSize rem.length := by
    simp [List.length_take]
  by_cases h0 : (rem.take st.recSize).length = 0
  · simp only [rawNext, if_pos h0]
  · have hlt : (rem.take st.recSize).length < st.recSize := by
      rcases h with h | h
      · omega
      · subst h
        rw [List.take_nil] at h0
        exact absurd rfl h0
    simp only [rawNext, if_neg h0, if_pos hlt]

/-- Witness for C8: one stray byte before end of stream. -/
theorem raw_next_short_read_no_more_witness :
    rawNext rawGoodState [0] = .ok .noMore :=
  raw_next_short_read_no_more rawGoodState [0] (Or.inl (by decide))

/-- C10 counterexample: with `digitalMax == digitalMin` the unguarded
division in `_scale` raises `ZeroDivisionError` — not the FormatError the
claim requires (and not an infinity/NaN value either, since no `.ok`
value is produced). -/
theorem scale_degenerate_counterexample :
    _scale 5 (3, 3) (0, 1) = .error .zeroDivisionError := by
  norm_num [_scale]

/-- C10 amended: `_scale` contains no guard of its own.  When
`digitalMax = digitalMin` the division raises `ZeroDivisionError` (no
FormatError, and no value — hence no infinity/NaN — is returned); when
`digitalMax ≠ digitalMin` the division proceeds and returns the affine
map's value. -/
theorem scale_degenerate_behavior (v : ℚ) (s d : ℚ × ℚ) :
    (s.2 = s.1 → _scale v s d = .error .zeroDivisionError) ∧
    (s.2 ≠ s.1 →
       _scale v s d = .ok ((v - s.1) / (s.2 - s.1) * (d.2 - d.1) + d.1)) := by
  constructor
  · intro h
    simp [_scale, h]
  · intro h
    rw [_scale, if_neg (by rw [sub_eq_zero]; exact h)]

/-- Witness for C10's amended theorem at concrete inputs. -/
theorem scale_degenerate_behavior_witness :
    _scale 7 (2, 2) (0, 5) = .error .zeroDivisionError ∧
    _scale 1 (0, 2) (10, 20) = .ok 15 := by
  refine ⟨(scale_degenerate_behavior 7 (2, 2) (0, 5)).1 rfl, ?_⟩
  rw [(scale_degenerate_behavior 1 (0, 2) (10, 20)).2 (by norm_num)]
  norm_num

theorem recVals_length (st : RawState) (rem : List Nat) :
    (recVals st rem).length = st.recCount := by
  simp [recVals, chunksN_length]

/-- Structural facts about every state `_read_header` can produce: the
record value count is `(nchan + nevent).toNat` (parsed back out of
`_rec_fmt`) and the code table has `max nevent 0` entries. -/
theorem rawReadHeader_ok_inv {bs rest : List Nat} {st : RawState}
    (h : rawReadHeader bs = .ok (st, rest)) :
    st.recCount = (st.header.nchan + st.header.nevent).toNat ∧
    st.codes.length = st.header.nevent.toNat := by
  simp only [rawReadHeader] at h
  split at h
  · cases h
  · split at h
    · simp only [rawReadHeader.rawReadCodes] at h
      split at h
      · cases h
      · split at h
        · cases h
        · cases h; exact ⟨rfl, chunksN_length _ _ _⟩
    · simp only [rawReadHeader.rawReadCodes] at h
      split at h
      · cases h
      · split at h
        · cases h
        · cases h; exact ⟨rfl, chunksN_length _ _ _⟩
    · simp only [rawReadHeader.rawReadCodes] at h
      split at h
      · cases h
      · split at h
        · cases h
        · cases h; exact ⟨rfl, chunksN_length _ _ _⟩
    · cases h

/-- C6: whenever `RawFile.next` successfully decodes a record, the returned
event list is exactly the spec-side selection `specActive`: the entries of
the event-code table whose flag equals 1, in table order; and on the
concrete header with codes "aaaa","bbbb","cccc" and a record with flags
1,0,1 the decoded events are "aaaa","cccc". -/
theorem raw_next_events_flagged (st : RawState) (rem : List Nat)
    (e : List (List Nat)) (smp : List PyVal)
    (h : rawNext st rem = .ok (.record e smp)) :
    e = specActive (recFlags st rem) st.codes := by
  simp only [rawNext] at h
  split_ifs at h
  · cases h
  · cases h
  · cases h
  · rw [Except.ok.injEq, RawNext.record.injEq] at h
    rw [← h.1, specActive_eq_zip_filter]
    rfl

/-- Witness for C6: the concrete scenario of the claim, flags `[1,0,1]`
against codes "aaaa","bbbb","cccc" — the events decode to "aaaa","cccc" in
that order (byte strings shown as ASCII codes). -/
theorem raw_next_events_flagged_witness :
    rawNext rawGoodState rawGoodRecord
      = .ok (.record [[97, 97, 97, 97], [99, 99, 99, 99]] [.int 7]) ∧
    [[97, 97, 97, 97], [99, 99, 99, 99]]
      = specActive (recFlags rawGoodState rawGoodRecord) rawGoodState.codes :=
  ⟨by decide,
   raw_next_events_flagged rawGoodState rawGoodRecord
     [[97, 97, 97, 97], [99, 99, 99, 99]] [.int 7] (by decide)⟩

/-- C7 counterexample: a RAW file whose decoded header has `nchan = -1` and
`nevent = 3` opens successfully; on a full record the decoded flag count is
1 ≠ 3, yet `next` returns the ordinary `False, False` end-of-data value
(`.ok .noMore`) — it does not signal a FormatError. -/
theorem raw_flag_mismatch_counterexample :
    (rawReadHeader rawNegBytes).map
        (fun p => ((recFlags p.1 rawNegRecord).length : Int)) = .ok 1 ∧
    (rawReadHeader rawNegBytes).map (fun p => p.1.header.nevent) = .ok 3 ∧
    (rawReadHeader rawNegBytes).bind (fun p => rawNext p.1 rawNegRecord)
      = .ok .noMore := by
  refine ⟨by decide, by decide, by decide⟩

/-- C7 amended: when the decoded event-flag count differs from the header's
declared event-type count, `next` prints an error and returns the same
`False, False` value as end-of-stream instead of raising; and for any state
`_read_header` produced whose channel and event counts are non-negative,
the flag count always equals the declared count, so the mismatch branch
cannot fire on such headers. -/
theorem raw_flag_mismatch_behavior :
    (∀ (st : RawState) (rem : List Nat),
       ((recFlags st rem).length : Int) ≠ st.header.nevent →
       rawNext st rem = .ok .noMore) ∧
    (∀ (bs rest : List Nat) (st : RawState),
       rawReadHeader bs = .ok (st, rest) →
       0 ≤ st.header.nchan → 0 ≤ st.header.nevent →
       ∀ rem : List Nat, ((recFlags st rem).length : Int) = st.header.nevent) := by
  constructor
  · intro st rem h
    simp only [rawNext]
    split_ifs with h1 h2 h3
    · rfl
    · rfl
    · rfl
    · exact absurd h h3
  · intro bs rest st h hchan hevent rem
    obtain ⟨hcount, _⟩ := rawReadHeader_ok_inv h
    have hv : (recVals st rem).length = st.recCount := recVals_length st rem
    simp only [recFlags, pySliceFrom, pySliceIdx, List.length_drop, hv, hcount]
    rw [if_neg (by omega)]
    omega

/-- Witness for C7's amended theorem: the mismatch path on the `nchan = -1`
state returns `noMore`; the reachable non-negative state from
`rawGoodBytes` always has a matching flag count. -/
theorem raw_flag_mismatch_behavior_witness :
    rawNext rawNegState rawNegRecord = .ok .noMore ∧
    ((recFlags rawGoodState rawGoodRecord).length : Int)
      = rawGoodState.header.nevent :=
  ⟨raw_flag_mismatch_behavior.1 rawNegState rawNegRecord (by decide),
   raw_flag_mismatch_behavior.2 rawGoodBytes [] rawGoodState (by decide)
     (by decide) (by decide) rawGoodRecord⟩

/-- C4 counterexample: a taxonomy error raised while decoding inside the
`RawFile` context manager does not propagate to the caller as itself —
`__exit__` intercepts it (and its `"Error: " + exc` print raises
`TypeError`, which is what the caller sees; had the print succeeded, the
`return True` would have suppressed the error entirely).  So the engine
does perform internal interception of such errors. -/
theorem raw_error_suppressed_counterexample :
    runRawWith rawGoodBytes
        (fun _ _ => (.error (.badRaw "Unknown filetype.") : Except PyError (List PyVal)))
      = .raised .typeError ∧
    PyError.typeError ≠ PyError.badRaw "Unknown filetype." := by
  refine ⟨by decide, by decide⟩

/-- C4 amended: errors raised during header decoding (`__enter__`) do
propagate uncaught to the caller; but an error raised inside the with-body
is passed to `__exit__`, which replaces it with the `TypeError` of its own
print (and would otherwise suppress it by returning `True`) — the original
error never reaches the caller. -/
theorem raw_with_propagation (α : Type) :
    (∀ (bs : List Nat) (e : PyError)
       (body : RawState → List Nat → Except PyError α),
       rawReadHeader bs = .error e → runRawWith bs body = .raised e) ∧
    (∀ (bs rest : List Nat) (st : RawState) (e : PyError)
       (body : RawState → List Nat → Except PyError α),
       rawReadHeader bs = .ok (st, rest) → body st rest = .error e →
       runRawWith bs body = .raised .typeError) := by
  constructor
  · intro bs e body h
    simp [runRawWith, h]
  · intro bs rest st e body h hb
    simp [runRawWith, h, hb, rawExit]

/-- Witness for C4's amended theorem at concrete inputs. -/
theorem raw_with_propagation_witness :
    runRawWith [] (fun _ _ => (.ok [] : Except PyError (List PyVal)))
      = .raised (.badRaw "Incomplete header.") ∧
    runRawWith rawGoodBytes
        (fun _ _ => (.error .badEdf : Except PyError (List PyVal)))
      = .raised .typeError :=
  ⟨(raw_with_propagation (List PyVal)).1 [] (.badRaw "Incomplete header.")
     (fun _ _ => .ok []) (by decide),
   (raw_with_propagation (List PyVal)).2 rawGoodBytes [] rawGoodState .badEdf
     (fun _ _ => .error .badEdf) (by decide) rfl⟩

/-- C5: the concrete scenario — an EDF+ file with `nsignal = 2`,
`sampleCount = [4, 4]`, `ndata = 1` whose single data record holds the
eight little-endian int16 values 1..8 decodes to channel 0 = `[1,2,3,4]`
and channel 1 = `[5,6,7,8]`. -/
theorem edf_concrete_scenario :
    (parseEdf edfGoodBytes).map (fun f => f.signals.map (fun s => s.nsample))
      = .ok [4, 4] ∧
    (parseEdf edfGoodBytes).map (fun f => pyInt? f.header.ndata)
      = .ok (some 1) ∧
    edfGoodBytes.drop 768 = [1, 0, 2, 0, 3, 0, 4, 0, 5, 0, 6, 0, 7, 0, 8, 0] ∧
    ((parseEdf edfGoodBytes).bind (fun f => edfRead f edfGoodBytes)).map
        (fun recs => recs.map (fun r => r.map EdfData.data))
      = .ok [[[1, 2, 3, 4], [5, 6, 7, 8]]] :=
  ⟨by decide, by decide, by decide, by decide⟩

/-- C2 counterexample: a successfully-opening EDF+ file with `ndata = 1`
whose single channel declares 0 samples per record.  The file is complete
(its data section has exactly `ndata * dataRecordSize = 0` bytes and there
is no short read), yet `read` returns 0 records, not the declared 1: with a
zero-byte record size the loop's `len(byt) == 0` test fires immediately. -/
theorem edf_degenerate_record_counterexample :
    parseEdf edfDegBytes = .ok edfDegFile ∧
    pyInt? edfDegFile.header.ndata = some 1 ∧
    (edfDegBytes.drop (256 + 256 * edfDegFile.signals.length)).length
      = 1 * edfDegFile.dataRecordSize ∧
    edfRead edfDegFile edfDegBytes = .ok [] :=
  ⟨by decide, by decide, by decide, by decide⟩

/-! Section: Inversion of a successful EDF+ open -/

/-- Specification of the offset loop: every produced offset is the
accumulated start plus twice the sum of the preceding sample counts, all
sample counts are non-negative (`calcsize` would have raised otherwise)
and the final total extends the accumulator by twice the full sum. -/
theorem offsetsAcc_ok :
    ∀ (l : List Int) (acc : Nat) (os : List Nat) (t : Nat),
      offsetsAcc acc l = .ok (os, t) →
      os.length = l.length ∧ (∀ x ∈ l, 0 ≤ x) ∧
      (∀ i, i < l.length →
         (os.getD i 0 : Int) = (acc : Int) + 2 * (l.take i).sum) ∧
      ((t : Int) = (acc : Int) + 2 * l.sum) := by
  intro l
  induction l with
  | nil =>
    intro acc os t h
    cases h
    refine ⟨rfl, by simp, ?_, by simp⟩
    intro i hi
    simp at hi
  | cons ns rest ih =>
    intro acc os t h
    simp only [offsetsAcc] at h
    split at h
    · cases h
    · rename_i hns
      cases hr : offsetsAcc (acc + 2 * ns.toNat) rest with
      | error e => rw [hr] at h; cases h
      | ok p =>
        obtain ⟨os', t'⟩ := p
        rw [hr] at h
        cases h
        obtain ⟨hlen, hpos, hget, ht⟩ := ih _ _ _ hr
        have hns' : (0 : Int) ≤ ns := by omega
        have hcast : ((acc + 2 * ns.toNat : Nat) : Int) = (acc : Int) + 2 * ns := by
          push_cast [Int.toNat_of_nonneg hns']
          ring
        refine ⟨by simp [hlen], ?_, ?_, ?_⟩
        · intro x hx
          rcases List.mem_cons.mp hx with hx | hx
          · omega
          · exact hpos x hx
        · intro i hi
          cases i with
          | zero => simp
          | succ j =>
            have hj : j < rest.length := by simpa using hi
            rw [List.getD_cons_succ, List.take_succ_cons, List.sum_cons,
              hget j hj, hcast]
            ring
        · rw [List.sum_cons, ht, hcast]
          ring

theorem range_map_getD (l : List α) (d : α) :
    (List.range l.length).map (fun i => l.getD i d) = l := by
  apply List.ext_getElem
  · simp
  · intro i h1 h2
    simp only [List.getElem_map, List.getElem_range, List.getD_eq_getElem l d h2]

theorem mkSignals_length (n : Nat) (labels ttypes pdims : List (List Nat))
    (pmins pmaxs : List PyFloatV) (dmins dmaxs : List Int)
    (preflts : List (List Nat)) (nsamples : List Int)
    (reserveds : List (List Nat)) (offs : List Nat) :
    (mkSignals n labels ttypes pdims pmins pmaxs dmins dmaxs preflts
       nsamples reserveds offs).length = n := by
  simp [mkSignals]

theorem mkSignals_getD (n : Nat) (labels ttypes pdims : List (List Nat))
    (pmins pmaxs : List PyFloatV) (dmins dmaxs : List Int)
    (preflts : List (List Nat)) (nsamples : List Int)
    (reserveds : List (List Nat)) (offs : List Nat) (i : Nat) (hi : i < n) :
    (mkSignals n labels ttypes pdims pmins pmaxs dmins dmaxs preflts
       nsamples reserveds offs).getD i default
      = { label := labels.getD i [], ttype := ttypes.getD i [],
          pdim := pdims.getD i [], pmin := pmins.getD i (.fin 0),
          pmax := pmaxs.getD i (.fin 0), dmin := dmins.getD i 0,
          dmax := dmaxs.getD i 0, preflt := preflts.getD i [],
          nsample := nsamples.getD i 0, reserved := reserveds.getD i [],
          offset := offs.getD i 0 } := by
  simp [mkSignals, List.getD_eq_getElem?_getD, List.getElem?_map,
    List.getElem?_range hi]

theorem mkSignals_map_nsample (n : Nat) (labels ttypes pdims : List (List Nat))
    (pmins pmaxs : List PyFloatV) (dmins dmaxs : List Int)
    (preflts : List (List Nat)) (nsamples : List Int)
    (reserveds : List (List Nat)) (offs : List Nat)
    (hlen : nsamples.length = n) :
    (mkSignals n labels ttypes pdims pmins pmaxs dmins dmaxs preflts
       nsamples reserveds offs).map (fun s => s.nsample) = nsamples := by
  subst hlen
  simp only [mkSignals, List.map_map]
  exact range_map_getD nsamples 0

theorem unpackArrayStr_ok {count size : Nat} {rem fieldsRem : List Nat}
    {fields : List (List Nat)}
    (h : unpackArrayStr count size rem = .ok (fields, fieldsRem)) :
    fields.length = count := by
  simp only [unpackArrayStr] at h
  split at h
  · cases h
  · cases hm : mapME bdecodeOne (chunksN size count (rem.take (count * size))) with
    | error e => rw [hm] at h; cases h
    | ok fs =>
      rw [hm] at h
      cases h
      rw [mapME_ok_length hm, chunksN_length]

/-- Inversion of `parseEdfTail`: a successful result carries the header it
was given, signals built by `mkSignals` from the offset loop's output, the
loop's total as `_data_record_size`, and a declared `nbyte` equal to the
cursor position `256 + 256 * n`. -/
theorem parseEdfTail_ok_inv {hdr : EdfHeaderT} {n : Nat}
    {labels ttypes pdims : List (List Nat)} {pmins pmaxs : List PyFloatV}
    {dmins dmaxs : List Int} {preflts : List (List Nat)}
    {nsamples : List Int} {reserveds : List (List Nat)} {f : EdfFile}
    (h : parseEdf.parseEdfTail hdr n labels ttypes pdims pmins pmaxs dmins
           dmaxs preflts nsamples reserveds = .ok f) :
    ∃ offs : List Nat,
      offsetsAcc 0 nsamples = .ok (offs, f.dataRecordSize) ∧
      f.header = hdr ∧
      f.signals = mkSignals n labels ttypes pdims pmins pmaxs dmins dmaxs
                    preflts nsamples reserveds offs ∧
      pyInt? f.header.nbyte = some ((256 + 256 * n : Nat) : Int) := by
  simp only [parseEdf.parseEdfTail] at h
  split at h
  · cases h
  rename_i nbyteI hb
  split at h
  · cases h
  rename_i hEq
  split at h
  · cases h
  rename_i offs drs ho
  split at h
  · cases h
  rename_i dv hd
  split at h
  · cases h
  rename_i nd hn
  cases h
  refine ⟨offs, ho, rfl, rfl, ?_⟩
  rw [hb]
  congr 1
  omega

/-- Inversion of a successful `parseEdf`: exposes the signal count, the
sample-count list and the offset list together with the structural facts
every later theorem needs. -/
theorem parseEdf_ok_parts {bs : List Nat} {f : EdfFile}
    (h : parseEdf bs = .ok f) :
    ∃ (nsamples : List Int) (offs : List Nat),
      nsamples.length = f.signals.length ∧
      offsetsAcc 0 nsamples = .ok (offs, f.dataRecordSize) ∧
      f.signals.map (fun s => s.nsample) = nsamples ∧
      (∀ i, i < f.signals.length →
         (f.signals.getD i default).offset = offs.getD i 0 ∧
         (f.signals.getD i default).nsample = nsamples.getD i 0) ∧
      pyInt? f.header.nbyte
        = some ((256 + 256 * f.signals.length : Nat) : Int) := by
  simp only [parseEdf] at h
  split at h
  · cases h
  rename_i hdr hA
  split at h
  · cases h
  rename_i nsigI hB
  split at h
  · cases h
  rename_i labels r1 h1
  split at h
  · cases h
  rename_i ttypes r2 h2
  split at h
  · cases h
  rename_i pdims r3 h3
  split at h
  · cases h
  rename_i pminS r4 h4
  split at h
  · cases h
  rename_i pmins h4b
  split at h
  · cases h
  rename_i pmaxS r5 h5
  split at h
  · cases h
  rename_i pmaxs h5b
  split at h
  · cases h
  rename_i dminS r6 h6
  split at h
  · cases h
  rename_i dmins h6b
  split at h
  · cases h
  rename_i dmaxS r7 h7
  split at h
  · cases h
  rename_i dmaxs h7b
  split at h
  · cases h
  rename_i preflts r8 h8
  split at h
  · cases h
  rename_i nsampleS r9 h9
  split at h
  · cases h
  rename_i nsamples h9b
  split at h
  · cases h
  rename_i reserveds r10 h10
  obtain ⟨offs, ho, hhdr, hsig, hnb⟩ := parseEdfTail_ok_inv h
  have hns_len : nsamples.length = nsigI.toNat := by
    rw [mapME_ok_length h9b, unpackArrayStr_ok h9]
  have hsig_len : f.signals.length = nsigI.toNat := by
    rw [hsig, mkSignals_length]
  refine ⟨nsamples, offs, by omega, ho, ?_, ?_, ?_⟩
  · rw [hsig]
    exact mkSignals_map_nsample _ _ _ _ _ _ _ _ _ _ _ _ (by omega)
  · intro i hi
    rw [hsig, mkSignals_getD _ _ _ _ _ _ _ _ _ _ _ _ i (by omega)]
    exact ⟨rfl, rfl⟩
  · rw [hnb, hsig_len]

/-- C1: in every successfully opened EDF+ file, channel `i`'s computed
offset equals `2 * (sum of the sample counts of channels j < i)` — so
`offset[0] = 0` and `offset[i+1] - offset[i] = sampleCount[i] * 2` — and
the offsets are accumulated from 0 (the start of a data record), not from
the file position. -/
theorem edf_offsets_contiguous (bs : List Nat) (f : EdfFile)
    (hp : parseEdf bs = .ok f) :
    (∀ i, i < f.signals.length →
       ((f.signals.getD i default).offset : Int)
         = 2 * ((f.signals.take i).map (fun s => s.nsample)).sum) ∧
    (0 < f.signals.length → (f.signals.getD 0 default).offset = 0) ∧
    (∀ i, i + 1 < f.signals.length →
       ((f.signals.getD (i + 1) default).offset : Int)
           - ((f.signals.getD i default).offset : Int)
         = 2 * (f.signals.getD i default).nsample) := by
  obtain ⟨nsamples, offs, hns_len, ho, hmap, hidx, hnb⟩ := parseEdf_ok_parts hp
  obtain ⟨holen, hpos, hget, htot⟩ := offsetsAcc_ok nsamples 0 offs _ ho
  have main : ∀ i, i < f.signals.length →
      ((f.signals.getD i default).offset : Int)
        = 2 * ((f.signals.take i).map (fun s => s.nsample)).sum := by
    intro i hi
    rw [(hidx i hi).1, List.map_take, hmap, hget i (by omega)]
    push_cast
    ring
  refine ⟨main, ?_, ?_⟩
  · intro h0
    have := main 0 h0
    simpa using this
  · intro i hi
    rw [(hidx i (by omega)).1, (hidx (i + 1) hi).1, (hidx i (by omega)).2,
      hget i (by omega), hget (i + 1) (by omega),
      List.sum_take_succ nsamples i (by omega),
      List.getD_eq_getElem nsamples 0 (show i < nsamples.length by omega)]
    push_cast
    ring

/-- Witness for C1 on the concrete two-channel file: channel 1's offset is
8 = 2 * 4, twice the preceding channel's sample count. -/
theorem edf_offsets_contiguous_witness :
    ((edfGoodFile.signals.getD 1 default).offset : Int)
      = 2 * ((edfGoodFile.signals.take 1).map (fun s => s.nsample)).sum :=
  (edf_offsets_contiguous edfGoodBytes edfGoodFile (by decide)).1 1 (by decide)

/-! Section: The EDF+ record loop -/

theorem sumNsample_cons (s : SignalHeader) (rest : List SignalHeader) :
    sumNsample (s :: rest) = s.nsample + sumNsample rest := by
  simp [sumNsample]

/-- Each demultiplexed channel slice has exactly its declared sample count,
provided the running start index stays within the unpacked tuple. -/
theorem demuxGo_getD_length (ints : List Int) :
    ∀ (sigs : List SignalHeader) (start : Int) (i : Nat),
      0 ≤ start →
      (∀ s ∈ sigs, 0 ≤ s.nsample) →
      start + sumNsample sigs ≤ (ints.length : Int) →
      i < sigs.length →
      (((demuxGo ints start sigs).map EdfData.data).getD i []).length
        = ((sigs.getD i default).nsample).toNat := by
  intro sigs
  induction sigs with
  | nil =>
    intro start i _ _ _ hi
    simp at hi
  | cons s rest ih =>
    intro start i hstart hall hsum hi
    have hs : 0 ≤ s.nsample := hall s (List.mem_cons_self s rest)
    have hrest : ∀ x ∈ rest, 0 ≤ x.nsample :=
      fun x hx => hall x (List.mem_cons_of_mem s hx)
    have hrest_sum : 0 ≤ sumNsample rest :=
      List.sum_nonneg (by
        intro x hx
        obtain ⟨y, hy, rfl⟩ := List.mem_map.mp hx
        exact hrest y hy)
    rw [sumNsample_cons] at hsum
    cases i with
    | zero =>
      simp only [demuxGo, List.map_cons, List.getD_cons_zero]
      rw [pySlice_length start (start + s.nsample) ints hstart (by omega)
        (by omega)]
      congr 1
      omega
    | succ j =>
      simp only [demuxGo, List.map_cons, List.getD_cons_succ]
      exact ih (start + s.nsample) j (by omega) hrest (by omega)
        (by simpa using hi)

/-- The record loop on a data section holding exactly `m` full records
produces exactly `m` decoded records, each with every channel at its
declared sample count. -/
theorem readLoop_count (f : EdfFile)
    (hall : ∀ s ∈ f.signals, 0 ≤ s.nsample)
    (hdrs : (f.dataRecordSize : Int) = 2 * sumNsample f.signals)
    (hpos : 0 < f.dataRecordSize) :
    ∀ (m fuel : Nat) (rem : List Nat),
      rem.length = m * f.dataRecordSize → rem.length < fuel →
      ∃ recs, readLoop f fuel rem = .ok recs ∧ recs.length = m ∧
        ∀ r ∈ recs, ∀ i, i < f.signals.length →
          ((r.map EdfData.data).getD i []).length
            = ((f.signals.getD i default).nsample).toNat := by
  have hsum_nonneg : 0 ≤ sumNsample f.signals :=
    List.sum_nonneg (by
      intro x hx
      obtain ⟨y, hy, rfl⟩ := List.mem_map.mp hx
      exact hall y hy)
  intro m
  induction m with
  | zero =>
    intro fuel rem hrem hfuel
    cases fuel with
    | zero => omega
    | succ k =>
      refine ⟨[], ?_, rfl, by simp⟩
      have h0 : (rem.take f.dataRecordSize).length = 0 := by
        simp only [List.length_take]
        omega
      simp only [readLoop, if_pos h0]
  | succ m ih =>
    intro fuel rem hrem hfuel
    cases fuel with
    | zero => omega
    | succ k =>
      have hge : f.dataRecordSize ≤ rem.length := by
        rw [hrem, Nat.succ_mul]
        omega
      have hbyt : (rem.take f.dataRecordSize).length = f.dataRecordSize := by
        simp only [List.length_take]
        omega
      have hnint : ¬ sumNsample f.signals < 0 := by omega
      have hexact : (rem.take f.dataRecordSize).length
          = 2 * (sumNsample f.signals).toNat := by
        rw [hbyt]
        omega
      obtain ⟨recs', hloop, hlen', hchan'⟩ := ih k (rem.drop f.dataRecordSize)
        (by
          simp only [List.length_drop]
          rw [hrem, Nat.succ_mul]
          omega)
        (by
          simp only [List.length_drop]
          omega)
      refine ⟨demuxGo (i16LEList (rem.take f.dataRecordSize)) 0 f.signals
        :: recs', ?_, by simp [hlen'], ?_⟩
      · simp only [readLoop, if_neg (by omega : ¬ (rem.take f.dataRecordSize).length = 0),
          if_neg (by omega : ¬ (rem.take f.dataRecordSize).length < f.dataRecordSize),
          if_neg hnint, if_neg (by omega : ¬ (rem.take f.dataRecordSize).length
            ≠ 2 * (sumNsample f.signals).toNat), hloop]
      · intro r hr i hi
        rcases List.mem_cons.mp hr with hr | hr
        · subst hr
          apply demuxGo_getD_length _ f.signals 0 i le_rfl hall _ hi
          rw [i16LEList_length, hexact]
          omega
        · exact hchan' r hr i hi

/-- Concatenating one channel across records multiplies its per-record
sample count by the record count. -/
theorem channelJoin_length (i : Nat) (c : Nat) :
    ∀ recs : List (List EdfData),
      (∀ r ∈ recs, ((r.map EdfData.data).getD i []).length = c) →
      (channelJoin recs i).length = recs.length * c := by
  intro recs
  induction recs with
  | nil => intro _; simp [channelJoin]
  | cons r rs ih =>
    intro h
    have hr := h r (List.mem_cons_self r rs)
    have hrs := ih (fun x hx => h x (List.mem_cons_of_mem r hx))
    simp only [channelJoin, List.map_cons, List.flatten_cons,
      List.length_append, List.length_cons]
    rw [show ((r.map EdfData.data).getD i []).length = c from hr]
    have : ((rs.map fun r => (r.map EdfData.data).getD i []).flatten).length
        = rs.length * c := hrs
    rw [this, Nat.succ_mul]
    omega

/-- C2 (amended with `0 < dataRecordSize`): on a successfully opened EDF+
file with declared record count `ndata ≥ 0` whose data section holds
exactly `ndata` full records, `read` produces exactly `ndata` records and
concatenating channel `i` across them yields `ndata * sampleCount[i]`
samples.  (The loop also stops early, discarding a partial record, on a
short read — the exact-length hypothesis covers the claim's "valid input"
case; the zero-record-size exception is the subject of the separate
counterexample above.) -/
theorem edf_read_declared_records (bs : List Nat) (f : EdfFile) (n : Nat)
    (hp : parseEdf bs = .ok f)
    (hnd : pyInt? f.header.ndata = some (n : Int))
    (hlen : (bs.drop (256 + 256 * f.signals.length)).length
              = n * f.dataRecordSize)
    (hpos : 0 < f.dataRecordSize) :
    ∃ recs, edfRead f bs = .ok recs ∧ recs.length = n ∧
      ∀ i, i < f.signals.length →
        (channelJoin recs i).length
          = n * ((f.signals.getD i default).nsample).toNat := by
  obtain ⟨nsamples, offs, hns_len, ho, hmap, hidx, hnb⟩ := parseEdf_ok_parts hp
  obtain ⟨holen, hposl, hget, htot⟩ := offsetsAcc_ok nsamples 0 offs _ ho
  have hall : ∀ s ∈ f.signals, 0 ≤ s.nsample := by
    intro s hs
    apply hposl
    rw [← hmap]
    exact List.mem_map.mpr ⟨s, hs, rfl⟩
  have hdrs : (f.dataRecordSize : Int) = 2 * sumNsample f.signals := by
    have : sumNsample f.signals = nsamples.sum := by rw [sumNsample, hmap]
    rw [this]
    omega
  obtain ⟨recs, hloop, hcount, hchan⟩ := readLoop_count f hall hdrs hpos n
    ((bs.drop (256 + 256 * f.signals.length)).length + 1)
    (bs.drop (256 + 256 * f.signals.length)) hlen (by omega)
  refine ⟨recs, ?_, hcount, ?_⟩
  · simp only [edfRead, hnb, hnd]
    rw [if_neg (by omega : ¬ ((256 + 256 * f.signals.length : Nat) : Int) < 0)]
    have htn : ((256 + 256 * f.signals.length : Nat) : Int).toNat
        = 256 + 256 * f.signals.length := by omega
    rw [htn]
    exact hloop
  · intro i hi
    rw [channelJoin_length i _ recs (fun r hr => hchan r hr i hi), hcount]

/-- Witness for C2's theorem on the concrete two-channel one-record file. -/
theorem edf_read_declared_records_witness :
    ∃ recs, edfRead edfGoodFile edfGoodBytes = .ok recs ∧ recs.length = 1 ∧
      ∀ i, i < edfGoodFile.signals.length →
        (channelJoin recs i).length
          = 1 * ((edfGoodFile.signals.getD i default).nsample).toNat :=
  edf_read_declared_records edfGoodBytes edfGoodFile 1 (by decide) (by decide)
    (by decide) (by decide)

/-- Documentation of the legacy divergence: on the same concrete file with
`ndata = 1` and one complete record, the legacy root-module `read` returns
no records at all — its counter check breaks before the first record is
processed — where the packaged decoder returns the record. -/
theorem edfReadLegacy_discards_last_record :
    edfReadLegacy edfGoodFile edfGoodBytes = .ok [] ∧
    pyInt? edfGoodFile.header.ndata = some 1 :=
  ⟨by decide, by decide⟩

end PyEdf
